import Mathlib

/-!
Verification of the invoiceable repository: the PDFPreview frontend
component (src/frontend/src/components/PDFPreview.js) and the
session-scoped semantic chat engine described in the specification
(Session Manager, Session Store, Vector Index, Query Engine).

Numeric values (JS numbers, invoice amounts, embedding components) are
modelled as rationals; time is modelled as natural-number seconds.
-/

/-- Decidable equality for `Except`, used to evaluate the fallible
operations of the model on concrete inputs. -/
instance {ε α : Type _} [DecidableEq ε] [DecidableEq α] : DecidableEq (Except ε α) := fun a b =>
  match a, b with
  | Except.ok x, Except.ok y =>
      if h : x = y then Decidable.isTrue (congrArg Except.ok h)
      else Decidable.isFalse (fun hh => h (Except.ok.inj hh))
  | Except.error x, Except.error y =>
      if h : x = y then Decidable.isTrue (congrArg Except.error h)
      else Decidable.isFalse (fun hh => h (Except.error.inj hh))
  | Except.ok _, Except.error _ => Decidable.isFalse (fun hh => Except.noConfusion hh)
  | Except.error _, Except.ok _ => Decidable.isFalse (fun hh => Except.noConfusion hh)

namespace Invoiceable

/-! ## PDFPreview component (src/frontend/src/components/PDFPreview.js) -/

/-- Initial zoom scale: `useState(1.0)` in PDFPreview.js. -/
def initialScale : ℚ := 1

/-- handleZoomIn from PDFPreview.js: `setScale(prev => Math.min(prev + 0.2, 3.0))`. -/
def handleZoomIn (s : ℚ) : ℚ := min (s + 1/5) 3

/-- handleZoomOut from PDFPreview.js: `setScale(prev => Math.max(prev - 0.2, 0.5))`. -/
def handleZoomOut (s : ℚ) : ℚ := max (s - 1/5) (1/2)

/-- A press of one of the two zoom buttons. -/
inductive ZoomPress where
  | zoomIn
  | zoomOut
deriving DecidableEq

/-- Apply one zoom button press to the current scale. -/
def zoomApply (s : ℚ) : ZoomPress → ℚ
  | ZoomPress.zoomIn => handleZoomIn s
  | ZoomPress.zoomOut => handleZoomOut s

/-- The scale after a sequence of zoom button presses, starting from 1.0. -/
def scaleAfter (ps : List ZoomPress) : ℚ := ps.foldl zoomApply initialScale

/-- Initial rotation: `useState(0)` in PDFPreview.js. -/
def initialRotation : Nat := 0

/-- handleRotate from PDFPreview.js: `setRotation(prev => (prev + 90) % 360)`. -/
def handleRotate (r : Nat) : Nat := (r + 90) % 360

/-- The rotation after n presses of the rotate button, starting from 0. -/
def rotationAfter : Nat → Nat
  | 0 => initialRotation
  | n + 1 => handleRotate (rotationAfter n)

/-! ## Vector Index

Modelled from the spec: the Vector Index component (spec section 4.2) is not
present under src/ (the repository ships only the frontend); it is modelled
here from the specification's words.  Embedding vectors are lists of
rationals; per section 4.2 similarity is the dot product of unit-normalized
vectors and vectors are normalized once at insertion time, so the stored
vectors are taken to be the normalized ones and the score is their dot
product with the query. -/

/-- An embedding vector: an ordered sequence of numeric components. -/
abbrev Vec := List ℚ

/-- One line item of an invoice (spec section 3, InvoiceRecord). -/
structure LineItem where
  description : String
  quantity : ℚ
  unitPrice : ℚ
  lineTotal : ℚ
deriving DecidableEq

/-- Modelled from the spec: InvoiceRecord (spec section 3).  `totalAmount`
is `none` when the numeric field is unparseable. -/
structure InvoiceRecord where
  vendorName : String
  invoiceNumber : String
  date : String
  totalAmount : Option ℚ
  lineItems : List LineItem
  paymentTerms : String
  dueDate : String
  rawText : String
  confidence : ℚ
deriving DecidableEq

/-- Modelled from the spec: IndexedFact (spec section 3) pairs one
InvoiceRecord with its embedding vector and a stable fact id. -/
structure IndexedFact where
  factId : Nat
  record : InvoiceRecord
  vec : Vec
deriving DecidableEq

/-- Modelled from the spec: the in-memory Vector Index (spec section 4.2);
`dim` is the established dimension, fixed by the first insertion. -/
structure VectorIndex where
  dim : Option Nat
  facts : List IndexedFact
deriving DecidableEq

/-- Errors raised by the Vector Index (spec section 4.2). -/
inductive IndexError where
  | dimensionMismatch
deriving DecidableEq

/-- The empty Vector Index: no facts, no established dimension. -/
def VectorIndex.emptyIndex : VectorIndex := ⟨none, []⟩

/-- Modelled from the spec: `add(fact)` (spec section 4.2) inserts an
IndexedFact and fails with DimensionMismatchError when the vector length
disagrees with the established dimension. -/
def VectorIndex.add (idx : VectorIndex) (f : IndexedFact) : Except IndexError VectorIndex :=
  match idx.dim with
  | none => Except.ok ⟨some f.vec.length, idx.facts ++ [f]⟩
  | some d =>
      if f.vec.length = d then Except.ok ⟨some d, idx.facts ++ [f]⟩
      else Except.error IndexError.dimensionMismatch

/-- In-place view of `add`: on failure the index is left unchanged (the
mutable index of the implementation keeps its previous contents). -/
def VectorIndex.tryAdd (idx : VectorIndex) (f : IndexedFact) :
    VectorIndex × Option IndexError :=
  match idx.add f with
  | Except.ok idx2 => (idx2, none)
  | Except.error e => (idx, some e)

/-- Dot product of two vectors (extra components of the longer one ignored). -/
def dot : Vec → Vec → ℚ
  | a :: as, b :: bs => a * b + dot as bs
  | _, _ => 0

/-- Similarity score of a stored fact against a query vector: cosine
similarity, i.e. the dot product of the unit-normalized vectors; stored
vectors are normalized at insertion time (spec section 4.2). -/
def scoreOf (q : Vec) (f : IndexedFact) : ℚ := dot q f.vec

/-- Modelled from the spec: the ranking order of `search` (spec section
4.2): higher score first, ties broken by earliest insertion order, then by
fact id.  Entries are (insertion index, fact) pairs. -/
def rankLE (q : Vec) (a b : Nat × IndexedFact) : Bool :=
  if scoreOf q a.2 = scoreOf q b.2 then
    if a.1 = b.1 then decide (a.2.factId ≤ b.2.factId)
    else decide (a.1 < b.1)
  else decide (scoreOf q b.2 < scoreOf q a.2)

/-- Insert an element into a list sorted by `le`, keeping it sorted. -/
def insertRank (le : α → α → Bool) (a : α) : List α → List α
  | [] => [a]
  | b :: bs => if le a b then a :: b :: bs else b :: insertRank le a bs

/-- Insertion sort by `le` (the linear-scan index sorts its whole fact
list; exactness is preferred over speed, spec section 4.2). -/
def sortRank (le : α → α → Bool) : List α → List α
  | [] => []
  | a :: as => insertRank le a (sortRank le as)

/-- All stored facts with their insertion indices, sorted best-first. -/
def VectorIndex.rankAll (idx : VectorIndex) (q : Vec) : List (Nat × IndexedFact) :=
  sortRank (rankLE q) idx.facts.enum

/-- Modelled from the spec: `search(queryVector, k)` (spec section 4.2)
returns the k best (fact, score) pairs, best first, with k clamped to the
number of stored facts. -/
def VectorIndex.search (idx : VectorIndex) (q : Vec) (k : Nat) :
    List (IndexedFact × ℚ) :=
  ((idx.rankAll q).take (min k idx.facts.length)).map (fun e => (e.2, scoreOf q e.2))

/-- A query vector is malformed for an index when the index has an
established dimension and the query's length disagrees with it. -/
def VectorIndex.queryMalformed (idx : VectorIndex) (q : Vec) : Bool :=
  match idx.dim with
  | some d => decide (q.length ≠ d)
  | none => false

/-- Modelled from the spec: the fallible entry point of `search`: errors
only on malformed input, never on an empty index (spec section 4.2). -/
def VectorIndex.searchE (idx : VectorIndex) (q : Vec) (k : Nat) :
    Except IndexError (List (IndexedFact × ℚ)) :=
  if idx.queryMalformed q then Except.error IndexError.dimensionMismatch
  else Except.ok (idx.search q k)

/-! ## Session Store and Session Manager

Modelled from the spec: the Session Store and Session Manager (spec
sections 3, 4.1) are not present under src/; they are modelled here from
the specification's words.  Session ids are generated from a
monotonically increasing counter, so a destroyed id is never reissued
(spec: "After destruction, the session id is permanently invalid").
Time is in seconds; the TTL is 2 hours. -/

/-- Modelled from the spec: the Embedding Provider (spec section 2): text
to fixed-dimension numeric vector.  `embed` returns `none` when the
provider is unreachable; a returned vector is malformed when its length
disagrees with `dim` (non-finite values do not exist in the rational
model and are subsumed by the unreachable case). -/
structure EmbeddingProvider where
  dim : Nat
  embed : String → Option Vec

/-- The provider's answer for one text, validated: `none` when the
provider is unreachable or the vector is malformed (wrong dimension). -/
def embedOk (p : EmbeddingProvider) (t : String) : Option Vec :=
  match p.embed t with
  | none => none
  | some v => if v.length = p.dim then some v else none

/-- Canonicalized text rendering of an InvoiceRecord, the text sent to the
Embedding Provider (spec section 4.1). -/
def canonText (r : InvoiceRecord) : String :=
  r.vendorName ++ " " ++ r.invoiceNumber ++ " " ++ r.date ++ " " ++
    r.paymentTerms ++ " " ++ r.rawText

/-- Embed a whole batch; `none` as soon as any record's embedding is
unreachable or malformed (all-or-nothing construction, spec section 4.1). -/
def embedBatch (p : EmbeddingProvider) : List InvoiceRecord → Option (List Vec)
  | [] => some []
  | r :: rs =>
      match embedOk p (canonText r), embedBatch p rs with
      | some v, some vs => some (v :: vs)
      | _, _ => none

/-- One IndexedFact per invoice, fact ids in insertion order. -/
def buildFacts (recs : List InvoiceRecord) (vecs : List Vec) : List IndexedFact :=
  (recs.zip vecs).enum.map (fun e => ⟨e.1, e.2.1, e.2.2⟩)

/-- Modelled from the spec: a Session (spec section 3): owner, creation
and last-activity timestamps, the Vector Index and the backing records. -/
structure Session where
  ownerId : String
  createdAt : Nat
  lastActivity : Nat
  index : VectorIndex
  records : List InvoiceRecord
deriving DecidableEq

/-- The session TTL: 2 hours of inactivity, in seconds (spec section 3). -/
def TTL : Nat := 2 * 60 * 60

/-- A session is expired at `now` when `now - lastActivity > TTL`. -/
def Session.expired (s : Session) (now : Nat) : Bool := decide (TTL < now - s.lastActivity)

/-- Modelled from the spec: the Session Store (spec section 2), keyed by
session id; `nextId` is the id-generation counter, so ids are never
reused. -/
structure SessionStore where
  sessions : List (Nat × Session)
  nextId : Nat
deriving DecidableEq

/-- The empty Session Store. -/
def SessionStore.emptyStore : SessionStore := ⟨[], 0⟩

/-- Find the session stored under an id. -/
def findSession : List (Nat × Session) → Nat → Option Session
  | [], _ => none
  | p :: ps, sid => if p.1 = sid then some p.2 else findSession ps sid

/-- Lookup by session id in the store. -/
def SessionStore.lookup (st : SessionStore) (sid : Nat) : Option Session :=
  findSession st.sessions sid

/-- Errors of the Session Manager (spec sections 4.1, 7). -/
inductive SessionError where
  | sessionNotFound
  | sessionAccessDenied
  | extractionEmpty
  | embeddingProvider
deriving DecidableEq

/-- Modelled from the spec: `createSession(ownerId, invoiceBatch)` (spec
section 4.1).  Returns the updated store and the new session id; on
failure the store is returned unchanged (all-or-nothing construction). -/
def SessionStore.createSession (st : SessionStore) (owner : String)
    (batch : List InvoiceRecord) (p : EmbeddingProvider) (now : Nat) :
    SessionStore × Except SessionError Nat :=
  if batch.isEmpty then (st, Except.error SessionError.extractionEmpty)
  else
    match embedBatch p batch with
    | none => (st, Except.error SessionError.embeddingProvider)
    | some vecs =>
        let idx : VectorIndex := ⟨some p.dim, buildFacts batch vecs⟩
        let sess : Session := ⟨owner, now, now, idx, batch⟩
        (⟨(st.nextId, sess) :: st.sessions, st.nextId + 1⟩, Except.ok st.nextId)

/-- Modelled from the spec: `getSession(sessionId, requesterId)` (spec
section 4.1): SessionNotFoundError when the id is unknown or expired,
SessionAccessDeniedError when the requester is not the owner. -/
def SessionStore.getSession (st : SessionStore) (sid : Nat) (requester : String)
    (now : Nat) : Except SessionError Session :=
  match st.lookup sid with
  | none => Except.error SessionError.sessionNotFound
  | some s =>
      if s.expired now then Except.error SessionError.sessionNotFound
      else if requester = s.ownerId then Except.ok s
      else Except.error SessionError.sessionAccessDenied

/-- Modelled from the spec: `touch(sessionId)` (spec section 4.1)
refreshes the last-activity timestamp. -/
def SessionStore.touch (st : SessionStore) (sid : Nat) (now : Nat) : SessionStore :=
  ⟨st.sessions.map (fun q => if q.1 = sid then (q.1, { q.2 with lastActivity := now }) else q),
    st.nextId⟩

/-- Modelled from the spec: `deleteSession(sessionId, requesterId)` (spec
section 4.1): explicit removal by the owner; idempotent, deleting an
already-gone session is a no-op, not an error. -/
def SessionStore.deleteSession (st : SessionStore) (sid : Nat) (requester : String) :
    SessionStore :=
  match st.lookup sid with
  | none => st
  | some s =>
      if requester = s.ownerId then
        ⟨st.sessions.filter (fun q => q.1 != sid), st.nextId⟩
      else st

/-- Modelled from the spec: `sweepExpired(now)` (spec section 4.1) evicts
every session whose `now - lastActivity > TTL`. -/
def SessionStore.sweepExpired (st : SessionStore) (now : Nat) : SessionStore :=
  ⟨st.sessions.filter (fun q => !(q.2.expired now)), st.nextId⟩

/-- A mutating operation on the Session Store, with its time. -/
inductive StoreOp where
  | create (owner : String) (batch : List InvoiceRecord) (p : EmbeddingProvider) (now : Nat)
  | touch (sid : Nat) (now : Nat)
  | delete (sid : Nat) (requester : String)
  | sweep (now : Nat)

/-- Apply one mutating operation to the store. -/
def applyOp (st : SessionStore) : StoreOp → SessionStore
  | StoreOp.create owner batch p now => (st.createSession owner batch p now).1
  | StoreOp.touch sid now => st.touch sid now
  | StoreOp.delete sid r => st.deleteSession sid r
  | StoreOp.sweep now => st.sweepExpired now

/-- Apply a sequence of mutating operations to the store. -/
def applyOps (st : SessionStore) (ops : List StoreOp) : SessionStore :=
  ops.foldl applyOp st

/-! ## Query Engine

Modelled from the spec: the Query Engine (spec section 4.3) is not present
under src/; it is modelled here from the specification's words.
Classification is a deterministic keyword/pattern match over the question
text; ambiguous phrasing defaults to LOOKUP.  The exact keyword rules are
implementation choices within the stated contract (spec section 9). -/

/-- Is `pat` a contiguous sublist of `s`? -/
def containsSub : List Char → List Char → Bool
  | [], pat => pat.isEmpty
  | c :: rest, pat => pat.isPrefixOf (c :: rest) || containsSub rest pat

/-- The question text lowercased, as a character list. -/
def lowered (q : String) : List Char := q.data.map Char.toLower

/-- Case-insensitive keyword detection over the question text. -/
def hasKw (q : String) (kw : String) : Bool := containsSub (lowered q) kw.data

/-- The rest of `s` after the first occurrence of `pat`, if any. -/
def afterSub : List Char → List Char → Option (List Char)
  | [], pat => if pat.isEmpty then some [] else none
  | c :: rest, pat =>
      if pat.isPrefixOf (c :: rest) then some ((c :: rest).drop pat.length)
      else afterSub rest pat

/-- Read the leading run of decimal digits as a natural number. -/
def parseNat (cs : List Char) : Nat :=
  (cs.takeWhile (fun c => c.isDigit)).foldl (fun acc c => acc * 10 + (c.toNat - 48)) 0

/-- Modelled from the spec: an extracted filter predicate over records
(spec section 4.3: e.g. "over $1000", "from vendor X", "with Net 30
terms"). -/
inductive Filter where
  | all
  | amountOver (t : ℚ)
  | fromVendor (v : String)
  | withTerms (t : String)
deriving DecidableEq

/-- Whether a record satisfies a filter; a record whose amount is
unparseable never satisfies a numeric-comparison filter. -/
def Filter.matches : Filter → InvoiceRecord → Bool
  | Filter.all, _ => true
  | Filter.amountOver t, r =>
      match r.totalAmount with
      | some a => decide (t < a)
      | none => false
  | Filter.fromVendor v, r => r.vendorName == v
  | Filter.withTerms t, r => r.paymentTerms == t

/-- Modelled from the spec: filter extraction by pattern match over the
question text (numeric-comparator and keyword detection, spec section
4.3); the concrete patterns are implementation choices (spec section 9). -/
def extractFilter (q : String) : Filter :=
  let cs := lowered q
  match afterSub cs ("over $".data) with
  | some rest => Filter.amountOver (parseNat rest)
  | none =>
      match afterSub cs ("from vendor ".data) with
      | some rest => Filter.fromVendor (String.mk (rest.takeWhile (fun c => c != '?')))
      | none =>
          if hasKw q "net 30" then Filter.withTerms "net 30"
          else Filter.all

/-- The aggregate operations (spec section 4.3): sum, count, average,
max, min. -/
inductive AggOp where
  | sumOp
  | countOp
  | avgOp
  | maxOp
  | minOp
deriving DecidableEq

/-- Modelled from the spec: the classification of a question (spec
section 4.3): AGGREGATE with its operation and filter, or LOOKUP with its
filter. -/
inductive QueryClass where
  | agg (op : AggOp) (f : Filter)
  | lookupQ (f : Filter)
deriving DecidableEq

/-- Modelled from the spec: deterministic rule-based classification of the
question (spec section 4.3); ambiguous phrasing defaults to LOOKUP. -/
def classify (q : String) : QueryClass :=
  let f := extractFilter q
  if hasKw q "total" || hasKw q "sum" then QueryClass.agg AggOp.sumOp f
  else if hasKw q "how many" || hasKw q "count" then QueryClass.agg AggOp.countOp f
  else if hasKw q "average" then QueryClass.agg AggOp.avgOp f
  else if hasKw q "most" || hasKw q "highest" || hasKw q "max" then QueryClass.agg AggOp.maxOp f
  else if hasKw q "least" || hasKw q "lowest" || hasKw q "min" then QueryClass.agg AggOp.minOp f
  else QueryClass.lookupQ f

/-- The parseable amounts of the records matching the filter; unparseable
numeric fields are excluded from the aggregate (spec section 4.3). -/
def amountsOf (f : Filter) (recs : List InvoiceRecord) : List ℚ :=
  (recs.filter (fun r => f.matches r)).filterMap (fun r => r.totalAmount)

/-- How many matching records have an unparseable amount; reported
separately as incomplete data (spec section 4.3). -/
def incompleteCount (f : Filter) (recs : List InvoiceRecord) : Nat :=
  ((recs.filter (fun r => f.matches r)).filter (fun r => r.totalAmount.isNone)).length

/-- The numeric value of an aggregate over the full record set; `none`
when the operation is undefined for the matching records (e.g. average
over zero records), per AggregateComputationError (spec section 4.3). -/
def aggValue (op : AggOp) (f : Filter) (recs : List InvoiceRecord) : Option ℚ :=
  let xs := amountsOf f recs
  match op with
  | AggOp.sumOp => some (xs.foldl (fun a b => a + b) 0)
  | AggOp.countOp => some (((recs.filter (fun r => f.matches r)).length : ℚ))
  | AggOp.avgOp =>
      if xs.isEmpty then none
      else some (xs.foldl (fun a b => a + b) 0 / (xs.length : ℚ))
  | AggOp.maxOp =>
      match xs with
      | [] => none
      | a :: as => some (as.foldl max a)
  | AggOp.minOp =>
      match xs with
      | [] => none
      | a :: as => some (as.foldl min a)

/-- The answer of one chat turn (spec section 4.3): an exact aggregate
value with the incomplete-data count, a degraded "not enough data"
answer, a lookup result referencing the evidence fact ids, or the
explicit "no matching invoices found" result. -/
inductive Answer where
  | aggregate (op : AggOp) (f : Filter) (value : ℚ) (incomplete : Nat)
  | insufficientData
  | found (factIds : List Nat)
  | noMatches
deriving DecidableEq

/-- Aggregate path of the answer computation: the operation is applied
directly over the full set of InvoiceRecords of the session, never over
the retrieved top-K (spec section 4.3). -/
def aggAnswer (op : AggOp) (f : Filter) (recs : List InvoiceRecord) : Answer :=
  match aggValue op f recs with
  | some v => Answer.aggregate op f v (incompleteCount f recs)
  | none => Answer.insufficientData

/-- Lookup path of the answer computation: the answer references only the
retrieved evidence set; an empty evidence set yields the explicit
"no matching invoices found" result (spec section 4.3). -/
def lookupAnswer (f : Filter) (evidence : List (IndexedFact × ℚ)) : Answer :=
  let ev := evidence.filter (fun e => f.matches e.1.record)
  if ev.isEmpty then Answer.noMatches
  else Answer.found (ev.map (fun e => e.1.factId))

/-- Compute the answer from the classification: the aggregate path reads
the full record set, the lookup path reads the evidence set; the two code
paths are structurally separate (spec section 9). -/
def computeAnswer (cls : QueryClass) (recs : List InvoiceRecord)
    (evidence : List (IndexedFact × ℚ)) : Answer :=
  match cls with
  | QueryClass.agg op f => aggAnswer op f recs
  | QueryClass.lookupQ f => lookupAnswer f evidence

/-- Errors of one query turn (spec section 4.3). -/
inductive QueryError where
  | embedding
  | index (e : IndexError)
deriving DecidableEq

/-- Modelled from the spec: one query against a resolved session (spec
section 4.3, steps 2-4): classify, embed the question, retrieve top-k
evidence, compute the answer. -/
def runQuery (sess : Session) (q : String) (p : EmbeddingProvider) (k : Nat) :
    Except QueryError Answer :=
  match embedOk p q with
  | none => Except.error QueryError.embedding
  | some qv =>
      match sess.index.searchE qv k with
      | Except.error e => Except.error (QueryError.index e)
      | Except.ok evidence => Except.ok (computeAnswer (classify q) sess.records evidence)

/-! ## Concrete demonstration data -/

/-- A concrete InvoiceRecord with the given vendor, number and amount. -/
def mkRec (v num : String) (amt : Option ℚ) : InvoiceRecord :=
  ⟨v, num, "2024-01-01", amt, [], "Net 30", "2024-02-01", "raw text", 1⟩

/-- A batch of three invoices with totals $100.00, $250.50 and $75.25. -/
def demoRecs : List InvoiceRecord :=
  [mkRec "Acme" "INV-1" (some 100),
   mkRec "Globex" "INV-2" (some (501/2)),
   mkRec "Initech" "INV-3" (some (301/4))]

/-- A concrete 2-dimensional embedding provider that always answers. -/
def demoProvider : EmbeddingProvider := ⟨2, fun _ => some [1, 0]⟩

/-- A concrete provider that is always unreachable. -/
def downProvider : EmbeddingProvider := ⟨2, fun _ => none⟩

/-- Stored facts whose cosine similarities to the query `[1, 0]` are
0.95, 0.80 and 0.60 respectively. -/
def demoFact0 : IndexedFact := ⟨0, mkRec "Acme" "INV-1" (some 100), [19/20, 0]⟩

/-- Second stored fact, similarity 0.80 to the query `[1, 0]`. -/
def demoFact1 : IndexedFact := ⟨1, mkRec "Globex" "INV-2" (some (501/2)), [4/5, 0]⟩

/-- Third stored fact, similarity 0.60 to the query `[1, 0]`. -/
def demoFact2 : IndexedFact := ⟨2, mkRec "Initech" "INV-3" (some (301/4)), [3/5, 0]⟩

/-- A concrete Vector Index holding the three demo facts, dimension 2. -/
def demoIdx : VectorIndex := ⟨some 2, [demoFact0, demoFact1, demoFact2]⟩

/-- A fact whose vector length 3 disagrees with the demo index dimension 2. -/
def badFact : IndexedFact := ⟨9, mkRec "Oops" "INV-9" none, [1, 2, 3]⟩

/-- A concrete Session over the demo batch, owned by alice, created at 0. -/
def demoSession : Session := ⟨"alice", 0, 0, demoIdx, demoRecs⟩

/-- A concrete Session Store holding the demo session under id 0. -/
def demoStore : SessionStore := ⟨[(0, demoSession)], 1⟩

/-- The store produced by creating a session for alice over the demo
batch at time 5, starting from the empty store. -/
def createdStore : SessionStore :=
  ⟨[(0, ⟨"alice", 5, 5, ⟨some 2, buildFacts demoRecs [[1, 0], [1, 0], [1, 0]]⟩, demoRecs⟩)], 1⟩

/-! ## PDFPreview theorems -/

/-- One zoom button press keeps the scale inside [0.5, 3.0]. -/
theorem zoom_step_bounds (s : ℚ) (hp : 1/2 ≤ s) (hq : s ≤ 3) (p : ZoomPress) :
    1/2 ≤ zoomApply s p ∧ zoomApply s p ≤ 3 := by
  cases p with
  | zoomIn =>
      refine ⟨le_min (by linarith) (by norm_num), min_le_right _ _⟩
  | zoomOut =>
      refine ⟨le_max_right _ _, max_le (by linarith) (by norm_num)⟩

/-- Folding any press sequence from a scale inside [0.5, 3.0] stays inside. -/
theorem scale_fold_bounds (ps : List ZoomPress) : ∀ s : ℚ, 1/2 ≤ s → s ≤ 3 →
    1/2 ≤ ps.foldl zoomApply s ∧ ps.foldl zoomApply s ≤ 3 := by
  induction ps with
  | nil => intro s h1 h2; exact ⟨h1, h2⟩
  | cons p ps ih =>
      intro s h1 h2
      have h := zoom_step_bounds s h1 h2 p
      simpa [List.foldl] using ih (zoomApply s p) h.1 h.2

/-- C9: in the PDFPreview component the zoom scale is invariant in the
closed interval [0.5, 3.0]: starting from the initial scale 1.0, every
sequence of handleZoomIn (add 0.2 capped at 3.0) and handleZoomOut
(subtract 0.2 floored at 0.5) presses leaves the scale at least 0.5 and
at most 3.0. -/
theorem pdfpreview_scale_invariant (ps : List ZoomPress) :
    1/2 ≤ scaleAfter ps ∧ scaleAfter ps ≤ 3 := by
  have h := scale_fold_bounds ps 1 (by norm_num) (by norm_num)
  simpa [scaleAfter, initialScale] using h

/-- C10: in the PDFPreview component the rotation state is always one of
0, 90, 180, 270: it starts at 0 and every handleRotate press replaces it
with (rotation + 90) % 360, so it stays a multiple of 90 strictly below
360. -/
theorem pdfpreview_rotation_invariant (n : Nat) :
    (rotationAfter n = 0 ∨ rotationAfter n = 90 ∨ rotationAfter n = 180 ∨
      rotationAfter n = 270) ∧
    rotationAfter n % 90 = 0 ∧ rotationAfter n < 360 := by
  induction n with
  | zero => decide
  | succ n ih =>
      rcases ih.1 with h | h | h | h <;>
        rw [show rotationAfter (n + 1) = handleRotate (rotationAfter n) from rfl, h] <;>
        decide

/-! ## Sorting lemmas -/

/-- Inserting into a list is a permutation of consing. -/
theorem perm_insertRank (le : α → α → Bool) (a : α) :
    ∀ l : List α, (insertRank le a l).Perm (a :: l) := by
  intro l
  induction l with
  | nil => simp [insertRank]
  | cons b bs ih =>
      by_cases h : le a b = true
      · simp [insertRank, h]
      · simp only [insertRank, h]
        rw [if_neg (by simp [h])]
        exact (ih.cons b).trans (List.Perm.swap a b bs)

/-- Insertion sort permutes its input. -/
theorem perm_sortRank (le : α → α → Bool) :
    ∀ l : List α, (sortRank le l).Perm l := by
  intro l
  induction l with
  | nil => simp [sortRank]
  | cons a as ih =>
      exact (perm_insertRank le a (sortRank le as)).trans (ih.cons a)

/-- Membership in an insertion. -/
theorem mem_insertRank (le : α → α → Bool) (a x : α) (l : List α) :
    x ∈ insertRank le a l ↔ x = a ∨ x ∈ l := by
  rw [(perm_insertRank le a l).mem_iff]
  simp

/-- Inserting into a sorted list keeps it sorted, for a total transitive
comparison. -/
theorem pairwise_insertRank (le : α → α → Bool)
    (total : ∀ x y, le x y = true ∨ le y x = true)
    (trans : ∀ x y z, le x y = true → le y z = true → le x z = true)
    (a : α) : ∀ l : List α, List.Pairwise (fun x y => le x y = true) l →
    List.Pairwise (fun x y => le x y = true) (insertRank le a l) := by
  intro l
  induction l with
  | nil => intro _; simp [insertRank]
  | cons b bs ih =>
      intro h
      rcases List.pairwise_cons.mp h with ⟨hb, hbs⟩
      by_cases hab : le a b = true
      · rw [insertRank, if_pos hab]
        refine List.pairwise_cons.mpr ⟨?_, h⟩
        intro y hy
        rcases List.mem_cons.mp hy with rfl | hy
        · exact hab
        · exact trans a b y hab (hb y hy)
      · rw [insertRank, if_neg (by simp [hab])]
        refine List.pairwise_cons.mpr ⟨?_, ih hbs⟩
        intro y hy
        rcases (mem_insertRank le a y bs).mp hy with rfl | hy
        · rcases total y b with hyb | hby
          · exact absurd hyb hab
          · exact hby
        · exact hb y hy

/-- Insertion sort sorts, for a total transitive comparison. -/
theorem pairwise_sortRank (le : α → α → Bool)
    (total : ∀ x y, le x y = true ∨ le y x = true)
    (trans : ∀ x y z, le x y = true → le y z = true → le x z = true) :
    ∀ l : List α, List.Pairwise (fun x y => le x y = true) (sortRank le l) := by
  intro l
  induction l with
  | nil => simp [sortRank]
  | cons a as ih => exact pairwise_insertRank le total trans a (sortRank le as) ih

/-- The ranking order is total. -/
theorem rankLE_total (q : Vec) (a b : Nat × IndexedFact) :
    rankLE q a b = true ∨ rankLE q b a = true := by
  unfold rankLE
  by_cases hs : scoreOf q a.2 = scoreOf q b.2
  · rw [if_pos hs, if_pos hs.symm]
    by_cases hi : a.1 = b.1
    · rw [if_pos hi, if_pos hi.symm]
      simp only [decide_eq_true_eq]
      omega
    · rw [if_neg hi, if_neg (Ne.symm hi)]
      simp only [decide_eq_true_eq]
      omega
  · rw [if_neg hs, if_neg (Ne.symm hs)]
    simp only [decide_eq_true_eq]
    rcases lt_or_gt_of_ne hs with h | h
    · right; exact h
    · left; exact h

/-- The ranking order is transitive. -/
theorem rankLE_trans (q : Vec) (a b c : Nat × IndexedFact)
    (hab : rankLE q a b = true) (hbc : rankLE q b c = true) :
    rankLE q a c = true := by
  unfold rankLE at hab hbc ⊢
  by_cases hsab : scoreOf q a.2 = scoreOf q b.2
  · by_cases hsbc : scoreOf q b.2 = scoreOf q c.2
    · rw [if_pos hsab] at hab
      rw [if_pos hsbc] at hbc
      rw [if_pos (hsab.trans hsbc)]
      by_cases hiab : a.1 = b.1
      · rw [if_pos hiab] at hab
        simp only [decide_eq_true_eq] at hab
        by_cases hibc : b.1 = c.1
        · rw [if_pos hibc] at hbc
          simp only [decide_eq_true_eq] at hbc
          rw [if_pos (hiab.trans hibc)]
          simp only [decide_eq_true_eq]
          omega
        · rw [if_neg hibc] at hbc
          simp only [decide_eq_true_eq] at hbc
          rw [if_neg (by omega)]
          simp only [decide_eq_true_eq]
          omega
      · rw [if_neg hiab] at hab
        simp only [decide_eq_true_eq] at hab
        by_cases hibc : b.1 = c.1
        · rw [if_neg (by omega)]
          simp only [decide_eq_true_eq]
          omega
        · rw [if_neg hibc] at hbc
          simp only [decide_eq_true_eq] at hbc
          rw [if_neg (by omega)]
          simp only [decide_eq_true_eq]
          omega
    · rw [if_neg hsbc] at hbc
      simp only [decide_eq_true_eq] at hbc
      have hlt : scoreOf q c.2 < scoreOf q a.2 := by rw [hsab]; exact hbc
      have hne : ¬ scoreOf q a.2 = scoreOf q c.2 := by
        intro h
        rw [h] at hlt
        exact lt_irrefl _ hlt
      rw [if_neg hne]
      simp only [decide_eq_true_eq]
      exact hlt
  · rw [if_neg hsab] at hab
    simp only [decide_eq_true_eq] at hab
    by_cases hsbc : scoreOf q b.2 = scoreOf q c.2
    · have hlt : scoreOf q c.2 < scoreOf q a.2 := by rw [← hsbc]; exact hab
      have hne : ¬ scoreOf q a.2 = scoreOf q c.2 := by
        intro h
        rw [h] at hlt
        exact lt_irrefl _ hlt
      rw [if_neg hne]
      simp only [decide_eq_true_eq]
      exact hlt
    · rw [if_neg hsbc] at hbc
      simp only [decide_eq_true_eq] at hbc
      have hlt : scoreOf q c.2 < scoreOf q a.2 := lt_trans hbc hab
      have hne : ¬ scoreOf q a.2 = scoreOf q c.2 := by
        intro h
        rw [h] at hlt
        exact lt_irrefl _ hlt
      rw [if_neg hne]
      simp only [decide_eq_true_eq]
      exact hlt

/-- C2: for every Vector Index with n stored facts, every query vector and
every k, search returns min(k, n) (fact, score) pairs: the ranking is a
permutation of the stored facts (with insertion indices) sorted by
descending cosine score with ties broken by earliest insertion order and
then by fact id (the order rankLE), and search takes the clamped prefix;
in particular on stored facts with similarities 0.95, 0.80, 0.60 to the
query, search with k = 2 returns the 0.95 fact then the 0.80 fact. -/
theorem vector_index_search_ordering :
    (∀ (idx : VectorIndex) (q : Vec) (k : Nat),
        (idx.search q k).length = min k idx.facts.length) ∧
    (∀ (idx : VectorIndex) (q : Vec), (idx.rankAll q).Perm idx.facts.enum) ∧
    (∀ (idx : VectorIndex) (q : Vec),
        List.Pairwise (fun a b => rankLE q a b = true) (idx.rankAll q)) ∧
    (∀ (idx : VectorIndex) (q : Vec) (k : Nat),
        idx.search q k =
          ((idx.rankAll q).take (min k idx.facts.length)).map
            (fun e => (e.2, scoreOf q e.2))) ∧
    demoIdx.search [1, 0] 2 = [(demoFact0, 19/20), (demoFact1, 4/5)] := by
  refine ⟨?_, ?_, ?_, ?_, ?_⟩
  · intro idx q k
    have hlen : (idx.rankAll q).length = idx.facts.length := by
      rw [VectorIndex.rankAll, (perm_sortRank (rankLE q) idx.facts.enum).length_eq,
        List.enum_length]
    simp only [VectorIndex.search, List.length_map, List.length_take, hlen]
    omega
  · intro idx q
    exact perm_sortRank (rankLE q) idx.facts.enum
  · intro idx q
    exact pairwise_sortRank (rankLE q) (rankLE_total q) (rankLE_trans q) idx.facts.enum
  · intro idx q k
    rfl
  · norm_num [VectorIndex.search, VectorIndex.rankAll, sortRank, insertRank, rankLE,
      scoreOf, dot, demoIdx, demoFact0, demoFact1, demoFact2, List.enum, List.enumFrom, mkRec]

/-! ## Vector Index error handling -/

/-- C5: for every Vector Index with an established dimension, adding a
fact whose vector length differs from that dimension fails with
DimensionMismatchError and leaves the index unchanged: the stored fact
count and the result of every subsequent search are those of the index
before the failed add. -/
theorem add_wrong_dimension_rejected (idx : VectorIndex) (f : IndexedFact) (d : Nat)
    (hd : idx.dim = some d) (hlen : f.vec.length ≠ d) :
    idx.tryAdd f = (idx, some IndexError.dimensionMismatch) ∧
    (idx.tryAdd f).1.facts.length = idx.facts.length ∧
    ∀ (q : Vec) (k : Nat), (idx.tryAdd f).1.search q k = idx.search q k := by
  have hadd : idx.add f = Except.error IndexError.dimensionMismatch := by
    simp only [VectorIndex.add, hd]
    rw [if_neg hlen]
  have htry : idx.tryAdd f = (idx, some IndexError.dimensionMismatch) := by
    simp only [VectorIndex.tryAdd, hadd]
  exact ⟨htry, by rw [htry], fun q k => by rw [htry]⟩

/-- Witness for C5: the demo index (dimension 2) rejects a length-3
vector and is left unchanged. -/
theorem add_wrong_dimension_rejected_witness :
    demoIdx.tryAdd badFact = (demoIdx, some IndexError.dimensionMismatch) ∧
    (demoIdx.tryAdd badFact).1.facts.length = demoIdx.facts.length := by
  have h := add_wrong_dimension_rejected demoIdx badFact 2 rfl (by decide)
  exact ⟨h.1, h.2.1⟩

/-- C8: search on an empty Vector Index returns the empty sequence for
every query and k and never raises an error; a search error can arise
only from malformed input (a query whose dimension disagrees with the
index's); and a LOOKUP question whose evidence set has no record matching
the extracted filter yields the explicit no-matching-invoices answer,
not an error and not a fabricated result. -/
theorem search_empty_and_lookup_no_matches :
    (∀ (q : Vec) (k : Nat), VectorIndex.emptyIndex.searchE q k = Except.ok []) ∧
    (∀ (idx : VectorIndex) (q : Vec) (k : Nat) (e : IndexError),
        idx.searchE q k = Except.error e → idx.queryMalformed q = true) ∧
    (∀ (sess : Session) (q : String) (p : EmbeddingProvider) (k : Nat)
        (qv : Vec) (f : Filter),
        classify q = QueryClass.lookupQ f →
        embedOk p q = some qv →
        sess.index.queryMalformed qv = false →
        (sess.index.search qv k).filter (fun e => f.matches e.1.record) = [] →
        runQuery sess q p k = Except.ok Answer.noMatches) := by
  refine ⟨?_, ?_, ?_⟩
  · intro q k
    simp [VectorIndex.searchE, VectorIndex.queryMalformed, VectorIndex.emptyIndex,
      VectorIndex.search, VectorIndex.rankAll, sortRank, List.enum]
  · intro idx q k e h
    by_cases hm : idx.queryMalformed q = true
    · exact hm
    · simp only [VectorIndex.searchE] at h
      rw [if_neg hm] at h
      exact absurd h (by simp)
  · intro sess q p k qv f hcls hemb hwf hfil
    have hse : sess.index.searchE qv k = Except.ok (sess.index.search qv k) := by
      simp only [VectorIndex.searchE]
      rw [if_neg (by simp [hwf])]
    rw [runQuery, hemb]
    simp only [hse, hcls, computeAnswer, lookupAnswer, hfil]
    rfl

/-- Witness for C8: the demo session answers the question "show invoices
over $1000000" (which no invoice satisfies) with the explicit
no-matching-invoices result. -/
theorem search_empty_and_lookup_no_matches_witness :
    runQuery demoSession "show invoices over $1000000" demoProvider 10 =
      Except.ok Answer.noMatches := by
  apply search_empty_and_lookup_no_matches.2.2 demoSession
    "show invoices over $1000000" demoProvider 10 [1, 0] (Filter.amountOver 1000000)
  · decide
  · rfl
  · rfl
  · norm_num [VectorIndex.search, VectorIndex.rankAll, sortRank, insertRank, rankLE,
      scoreOf, dot, demoSession, demoIdx, demoFact0, demoFact1, demoFact2,
      List.enum, List.enumFrom, mkRec, Filter.matches, List.filter]

/-! ## Query Engine aggregate exactness -/

/-- C1: for every session and every AGGREGATE-classified question, a
successful query answers with the requested operation (with its extracted
filter) computed directly over the full set of InvoiceRecords of the
session, never over the retrieved top-K: the answer is aggAnswer over
sess.records whatever the provider and the candidate count; in particular,
for the demo batch with totals $100.00, $250.50, $75.25, the question
"total amount across all invoices" answers exactly $425.75 = 1703/4 for
every provider and every top-K. -/
theorem aggregate_over_full_record_set :
    (∀ (sess : Session) (q : String) (p : EmbeddingProvider) (k : Nat)
        (op : AggOp) (f : Filter) (a : Answer),
        classify q = QueryClass.agg op f →
        runQuery sess q p k = Except.ok a →
        a = aggAnswer op f sess.records) ∧
    (∀ (p : EmbeddingProvider) (k : Nat) (a : Answer),
        runQuery demoSession "total amount across all invoices" p k = Except.ok a →
        a = Answer.aggregate AggOp.sumOp Filter.all (1703/4) 0) := by
  have main : ∀ (sess : Session) (q : String) (p : EmbeddingProvider) (k : Nat)
      (op : AggOp) (f : Filter) (a : Answer),
      classify q = QueryClass.agg op f →
      runQuery sess q p k = Except.ok a →
      a = aggAnswer op f sess.records := by
    intro sess q p k op f a hcls hrun
    rw [runQuery] at hrun
    split at hrun
    · exact absurd hrun (by simp)
    · split at hrun
      · exact absurd hrun (by simp)
      · have hq := Except.ok.inj hrun
        rw [← hq, hcls]
        rfl
  refine ⟨main, ?_⟩
  intro p k a hrun
  have hcls : classify "total amount across all invoices" =
      QueryClass.agg AggOp.sumOp Filter.all := by decide
  have h := main demoSession "total amount across all invoices" p k
    AggOp.sumOp Filter.all a hcls hrun
  rw [h]
  norm_num [aggAnswer, aggValue, amountsOf, incompleteCount, demoSession, demoRecs,
    mkRec, Filter.matches, List.filterMap_cons, List.filter]

/-- Witness for C1: with the always-answering demo provider and top-K 10,
the demo session answers the sum question with exactly 1703/4 dollars
($425.75). -/
theorem aggregate_over_full_record_set_witness :
    runQuery demoSession "total amount across all invoices" demoProvider 10 =
      Except.ok (Answer.aggregate AggOp.sumOp Filter.all (1703/4) 0) := by
  have h1 : runQuery demoSession "total amount across all invoices" demoProvider 10 =
      Except.ok (computeAnswer (classify "total amount across all invoices")
        demoSession.records (demoSession.index.search [1, 0] 10)) := rfl
  have h2 := aggregate_over_full_record_set.2 demoProvider 10 _ h1
  rw [h1, h2]

/-! ## Session Store lemmas -/

/-- A key keeps its binding after filtering out other entries, when its
first binding passes the filter. -/
theorem findSession_filter_some (f : Nat × Session → Bool) (sid : Nat) (s : Session) :
    ∀ l, findSession l sid = some s → f (sid, s) = true →
      findSession (l.filter f) sid = some s := by
  intro l
  induction l with
  | nil => intro h _; exact absurd h (by simp [findSession])
  | cons p ps ih =>
      intro h hf
      by_cases hp : p.1 = sid
      · rw [findSession, if_pos hp] at h
        have hs : p.2 = s := Option.some.inj h
        obtain ⟨a, b⟩ := p
        simp only at hp hs
        subst hp
        subst hs
        rw [List.filter_cons, if_pos hf, findSession, if_pos rfl]
      · rw [findSession, if_neg hp] at h
        rw [List.filter_cons]
        by_cases hfp : f p = true
        · rw [if_pos hfp, findSession, if_neg hp]
          exact ih h hf
        · rw [if_neg hfp]
          exact ih h hf

/-- An absent key stays absent after filtering. -/
theorem findSession_filter_none (f : Nat × Session → Bool) (sid : Nat) :
    ∀ l, findSession l sid = none → findSession (l.filter f) sid = none := by
  intro l
  induction l with
  | nil => intro _; simp [findSession]
  | cons p ps ih =>
      intro h
      rw [findSession] at h
      by_cases hp : p.1 = sid
      · rw [if_pos hp] at h
        exact absurd h (by simp)
      · rw [if_neg hp] at h
        rw [List.filter_cons]
        by_cases hfp : f p = true
        · rw [if_pos hfp, findSession, if_neg hp]
          exact ih h
        · rw [if_neg hfp]
          exact ih h

/-- A key not among the entry keys has no binding. -/
theorem findSession_eq_none_of_not_mem (sid : Nat) :
    ∀ l, sid ∉ l.map Prod.fst → findSession l sid = none := by
  intro l
  induction l with
  | nil => intro _; rfl
  | cons p ps ih =>
      intro h
      rw [List.map_cons] at h
      rw [findSession, if_neg (fun hp => h (List.mem_cons.mpr (Or.inl hp.symm)))]
      exact ih (fun hm => h (List.mem_cons.mpr (Or.inr hm)))

/-- When keys are distinct and the key's binding fails the filter, the key
has no binding after filtering. -/
theorem findSession_filter_drop (f : Nat × Session → Bool) (sid : Nat) (s : Session) :
    ∀ l, (l.map Prod.fst).Nodup → findSession l sid = some s → f (sid, s) = false →
      findSession (l.filter f) sid = none := by
  intro l
  induction l with
  | nil => intro _ h _; exact absurd h (by simp [findSession])
  | cons p ps ih =>
      intro hnd h hf
      rw [List.map_cons, List.nodup_cons] at hnd
      by_cases hp : p.1 = sid
      · rw [findSession, if_pos hp] at h
        have hs : p.2 = s := Option.some.inj h
        have hps : p = (sid, s) := by
          obtain ⟨a, b⟩ := p
          simp only at hp hs
          rw [hp, hs]
        have hmem : sid ∉ ps.map Prod.fst := by
          rw [← hp]
          exact hnd.1
        rw [List.filter_cons, hps, if_neg (by simp [hf])]
        exact findSession_filter_none f sid ps
          (findSession_eq_none_of_not_mem sid ps hmem)
      · rw [findSession, if_neg hp] at h
        rw [List.filter_cons]
        by_cases hfp : f p = true
        · rw [if_pos hfp, findSession, if_neg hp]
          exact ih hnd.2 h hf
        · rw [if_neg hfp]
          exact ih hnd.2 h hf

/-- Every binding of the delete filter avoids the deleted key. -/
theorem findSession_filter_ne (sid : Nat) :
    ∀ l : List (Nat × Session), findSession (l.filter (fun q => q.1 != sid)) sid = none := by
  intro l
  induction l with
  | nil => rfl
  | cons p ps ih =>
      rw [List.filter_cons]
      by_cases hp : p.1 = sid
      · rw [if_neg (by simp [hp])]
        exact ih
      · rw [if_pos (by simp [hp]), findSession, if_neg hp]
        exact ih

/-- Touch rewrites the key's binding to the refreshed session. -/
theorem findSession_touch_some (sid now : Nat) (s : Session) :
    ∀ l, findSession l sid = some s →
      findSession (l.map (fun q => if q.1 = sid then (q.1, { q.2 with lastActivity := now })
        else q)) sid = some { s with lastActivity := now } := by
  intro l
  induction l with
  | nil => intro h; exact absurd h (by simp [findSession])
  | cons p ps ih =>
      intro h
      rw [List.map_cons]
      by_cases hp : p.1 = sid
      · rw [findSession, if_pos hp] at h
        have hs : p.2 = s := Option.some.inj h
        rw [if_pos hp, findSession, if_pos hp, hs]
      · rw [findSession, if_neg hp] at h
        rw [if_neg hp, findSession, if_neg hp]
        exact ih h

/-- Touching any id does not bring an absent key into existence. -/
theorem findSession_touch_none (sid sid2 now : Nat) :
    ∀ l, findSession l sid = none →
      findSession (l.map (fun q => if q.1 = sid2 then (q.1, { q.2 with lastActivity := now })
        else q)) sid = none := by
  intro l
  induction l with
  | nil => intro _; rfl
  | cons p ps ih =>
      intro h
      rw [findSession] at h
      by_cases hp : p.1 = sid
      · rw [if_pos hp] at h
        exact absurd h (by simp)
      · rw [if_neg hp] at h
        rw [List.map_cons]
        by_cases hp2 : p.1 = sid2
        · rw [if_pos hp2, findSession, if_neg hp]
          exact ih h
        · rw [if_neg hp2, findSession, if_neg hp]
          exact ih h

/-- Deletion never brings an absent key into existence. -/
theorem lookup_delete_none (st : SessionStore) (sid sid2 : Nat) (r : String)
    (h : st.lookup sid = none) : (st.deleteSession sid2 r).lookup sid = none := by
  rw [SessionStore.deleteSession]
  split
  · exact h
  · split_ifs with ho
    · exact findSession_filter_none _ sid st.sessions h
    · exact h

/-- Deletion keeps the id counter. -/
theorem deleteSession_nextId (st : SessionStore) (sid2 : Nat) (r : String) :
    (st.deleteSession sid2 r).nextId = st.nextId := by
  rw [SessionStore.deleteSession]
  split
  · rfl
  · split_ifs with ho
    · rfl
    · rfl

/-- No single Session Store operation resurrects an id that is absent and
below the id counter: it stays absent and below the counter. -/
theorem lookup_none_applyOp (st : SessionStore) (op : StoreOp) (sid : Nat)
    (hlt : sid < st.nextId) (h : st.lookup sid = none) :
    (applyOp st op).lookup sid = none ∧ sid < (applyOp st op).nextId := by
  cases op with
  | create owner batch p now =>
      by_cases hb : batch.isEmpty
      · simp only [applyOp, SessionStore.createSession, if_pos hb]
        exact ⟨h, hlt⟩
      · cases hemb : embedBatch p batch with
        | none =>
            simp only [applyOp, SessionStore.createSession, if_neg hb, hemb]
            exact ⟨h, hlt⟩
        | some vecs =>
            simp only [applyOp, SessionStore.createSession, if_neg hb, hemb]
            refine ⟨?_, by omega⟩
            rw [SessionStore.lookup, findSession, if_neg (by omega)]
            exact h
  | touch sid2 now =>
      exact ⟨findSession_touch_none sid sid2 now st.sessions h, hlt⟩
  | delete sid2 r =>
      refine ⟨lookup_delete_none st sid sid2 r h, ?_⟩
      rw [applyOp, deleteSession_nextId]
      exact hlt
  | sweep now =>
      exact ⟨findSession_filter_none _ sid st.sessions h, hlt⟩

/-- No sequence of Session Store operations resurrects an id that is
absent and below the id counter. -/
theorem lookup_none_applyOps (sid : Nat) :
    ∀ (ops : List StoreOp) (st : SessionStore), sid < st.nextId → st.lookup sid = none →
      (applyOps st ops).lookup sid = none := by
  intro ops
  induction ops with
  | nil => intro st _ h; exact h
  | cons op ops ih =>
      intro st hlt h
      have hstep := lookup_none_applyOp st op sid hlt h
      exact ih (applyOp st op) hstep.2 hstep.1

/-! ## Session Manager theorems -/

/-- C3: getSession fails with SessionNotFoundError when the id is unknown
or the session is expired, and with SessionAccessDeniedError when the
requester is not the owner; and immediately after a successful
createSession, getSession by the creating owner succeeds while getSession
by any different requester fails with SessionAccessDeniedError. -/
theorem getSession_access_control :
    (∀ (st : SessionStore) (sid : Nat) (r : String) (now : Nat),
        st.lookup sid = none →
        st.getSession sid r now = Except.error SessionError.sessionNotFound) ∧
    (∀ (st : SessionStore) (sid : Nat) (r : String) (now : Nat) (s : Session),
        st.lookup sid = some s → s.expired now = true →
        st.getSession sid r now = Except.error SessionError.sessionNotFound) ∧
    (∀ (st : SessionStore) (sid : Nat) (r : String) (now : Nat) (s : Session),
        st.lookup sid = some s → s.expired now = false → r ≠ s.ownerId →
        st.getSession sid r now = Except.error SessionError.sessionAccessDenied) ∧
    (∀ (st st2 : SessionStore) (owner : String) (batch : List InvoiceRecord)
        (p : EmbeddingProvider) (now sid : Nat),
        st.createSession owner batch p now = (st2, Except.ok sid) →
        (∃ s, st2.getSession sid owner now = Except.ok s) ∧
        ∀ r, r ≠ owner → st2.getSession sid r now = Except.error SessionError.sessionAccessDenied) := by
  refine ⟨?_, ?_, ?_, ?_⟩
  · intro st sid r now h
    rw [SessionStore.getSession, h]
  · intro st sid r now s h hexp
    rw [SessionStore.getSession, h]
    simp only [hexp]
    rfl
  · intro st sid r now s h hexp hr
    rw [SessionStore.getSession, h]
    simp only [hexp]
    rw [if_neg (by simp), if_neg hr]
  · intro st st2 owner batch p now sid hcreate
    by_cases hb : batch.isEmpty
    · rw [SessionStore.createSession, if_pos hb] at hcreate
      exact absurd (congrArg Prod.snd hcreate) (by simp)
    · cases hemb : embedBatch p batch with
      | none =>
          rw [SessionStore.createSession, if_neg hb, hemb] at hcreate
          exact absurd (congrArg Prod.snd hcreate) (by simp)
      | some vecs =>
          rw [SessionStore.createSession, if_neg hb, hemb] at hcreate
          have hst2 : st2 = ⟨(st.nextId, ⟨owner, now, now, ⟨some p.dim, buildFacts batch vecs⟩,
              batch⟩) :: st.sessions, st.nextId + 1⟩ :=
            (congrArg Prod.fst hcreate).symm
          have hsid : sid = st.nextId := (Except.ok.inj (congrArg Prod.snd hcreate)).symm
          have hget : ∀ r2 : String, st2.getSession sid r2 now =
              if r2 = owner then Except.ok ⟨owner, now, now,
                ⟨some p.dim, buildFacts batch vecs⟩, batch⟩
              else Except.error SessionError.sessionAccessDenied := by
            intro r2
            rw [hst2, hsid, SessionStore.getSession, SessionStore.lookup, findSession,
              if_pos rfl]
            simp only [Session.expired, Nat.sub_self]
            rw [if_neg (by simp [TTL])]
          constructor
          · refine ⟨⟨owner, now, now, ⟨some p.dim, buildFacts batch vecs⟩, batch⟩, ?_⟩
            rw [hget owner, if_pos rfl]
          · intro r hr
            rw [hget r, if_neg hr]

/-- Witness for C3: creating a session for alice from the empty store
yields id 0; alice can get it back at once and bob is denied. -/
theorem getSession_access_control_witness :
    (∃ s, createdStore.getSession 0 "alice" 5 = Except.ok s) ∧
    createdStore.getSession 0 "bob" 5 = Except.error SessionError.sessionAccessDenied := by
  have h := getSession_access_control.2.2.2 SessionStore.emptyStore createdStore
    "alice" demoRecs demoProvider 5 0 rfl
  exact ⟨h.1, h.2 "bob" (by decide)⟩

/-- If some record of the batch cannot be embedded, the whole batch
embedding fails (all-or-nothing). -/
theorem embedBatch_none_of_mem (p : EmbeddingProvider) (r : InvoiceRecord) :
    ∀ batch : List InvoiceRecord, r ∈ batch → embedOk p (canonText r) = none →
      embedBatch p batch = none := by
  intro batch
  induction batch with
  | nil => intro h _; exact absurd h (List.not_mem_nil r)
  | cons b bs ih =>
      intro hmem hfail
      rcases List.mem_cons.mp hmem with rfl | hmem
      · rw [embedBatch, hfail]
      · rw [embedBatch, ih hmem hfail]
        cases embedOk p (canonText b) <;> rfl

/-- C4: createSession fails with ExtractionEmptyError on every empty
batch and with EmbeddingProviderError whenever the provider is
unreachable or returns a malformed vector for some record of the batch;
in every failure case the Session Store is returned unchanged, so no
partial session persists (all-or-nothing construction). -/
theorem createSession_failures :
    (∀ (st : SessionStore) (owner : String) (p : EmbeddingProvider) (now : Nat),
        st.createSession owner [] p now = (st, Except.error SessionError.extractionEmpty)) ∧
    (∀ (st : SessionStore) (owner : String) (batch : List InvoiceRecord)
        (p : EmbeddingProvider) (now : Nat) (r : InvoiceRecord),
        r ∈ batch → embedOk p (canonText r) = none →
        st.createSession owner batch p now = (st, Except.error SessionError.embeddingProvider)) ∧
    (∀ (st : SessionStore) (owner : String) (batch : List InvoiceRecord)
        (p : EmbeddingProvider) (now : Nat) (e : SessionError),
        (st.createSession owner batch p now).2 = Except.error e →
        (st.createSession owner batch p now).1 = st) := by
  refine ⟨?_, ?_, ?_⟩
  · intro st owner p now
    rfl
  · intro st owner batch p now r hmem hfail
    have hb : batch.isEmpty = false := by
      cases batch with
      | nil => exact absurd hmem (List.not_mem_nil r)
      | cons b bs => rfl
    rw [SessionStore.createSession, if_neg (by simp [hb]),
      embedBatch_none_of_mem p r batch hmem hfail]
  · intro st owner batch p now e herr
    by_cases hb : batch.isEmpty
    · rw [SessionStore.createSession, if_pos hb]
    · cases hemb : embedBatch p batch with
      | none => rw [SessionStore.createSession, if_neg hb, hemb]
      | some vecs =>
          rw [SessionStore.createSession, if_neg hb, hemb] at herr
          exact absurd herr (by simp)

/-- Witness for C4: with the unreachable provider, creating a session
over the demo batch fails with EmbeddingProviderError and leaves the
empty store empty. -/
theorem createSession_failures_witness :
    SessionStore.emptyStore.createSession "alice" demoRecs downProvider 0 =
      (SessionStore.emptyStore, Except.error SessionError.embeddingProvider) := by
  exact createSession_failures.2.1 SessionStore.emptyStore "alice" demoRecs downProvider 0
    (mkRec "Acme" "INV-1" (some 100)) (List.mem_cons_self _ _) rfl

/-- C7: deleteSession is idempotent: deleting the same id a second time
produces exactly the store of the first deletion, and deleting an id
that is not stored (never stored or already evicted) is a no-op, not an
error. -/
theorem deleteSession_idempotent :
    (∀ (st : SessionStore) (sid : Nat) (r : String),
        (st.deleteSession sid r).deleteSession sid r = st.deleteSession sid r) ∧
    (∀ (st : SessionStore) (sid : Nat) (r : String),
        st.lookup sid = none → st.deleteSession sid r = st) := by
  have noop : ∀ (st : SessionStore) (sid : Nat) (r : String),
      st.lookup sid = none → st.deleteSession sid r = st := by
    intro st sid r h
    rw [SessionStore.deleteSession, h]
  refine ⟨?_, noop⟩
  intro st sid r
  cases h : st.lookup sid with
  | none =>
      rw [noop st sid r h]
      exact noop st sid r h
  | some s =>
      by_cases ho : r = s.ownerId
      · have hd : st.deleteSession sid r =
            ⟨st.sessions.filter (fun q => q.1 != sid), st.nextId⟩ := by
          simp only [SessionStore.deleteSession, h]
          rw [if_pos ho]
        rw [hd]
        exact noop _ sid r (findSession_filter_ne sid st.sessions)
      · have hd : st.deleteSession sid r = st := by
          simp only [SessionStore.deleteSession, h]
          rw [if_neg ho]
        rw [hd]
        exact hd

/-- Witness for C7: deleting session 0 from the demo store twice equals
deleting it once, and deleting from a store without id 0 is a no-op. -/
theorem deleteSession_idempotent_witness :
    (demoStore.deleteSession 0 "alice").deleteSession 0 "alice" =
      demoStore.deleteSession 0 "alice" ∧
    (⟨[], 7⟩ : SessionStore).deleteSession 0 "alice" = ⟨[], 7⟩ := by
  exact ⟨deleteSession_idempotent.1 demoStore 0 "alice",
    deleteSession_idempotent.2 ⟨[], 7⟩ 0 "alice" rfl⟩

/-- C6: once a session's inactivity exceeds the TTL, one sweep evicts it
and getSession fails with SessionNotFoundError; an id that is absent and
below the id counter is never valid again under any sequence of store
operations (ids are never reused); and as long as each sweep happens
within TTL of the preceding touch, the session survives indefinitely
with its owner unchanged. -/
theorem session_expiry_lifecycle :
    (∀ (st : SessionStore) (sid : Nat) (s : Session) (now now2 : Nat) (r : String),
        (st.sessions.map Prod.fst).Nodup →
        st.lookup sid = some s → TTL < now - s.lastActivity →
        (st.sweepExpired now).getSession sid r now2 =
          Except.error SessionError.sessionNotFound) ∧
    (∀ (st : SessionStore) (sid : Nat) (ops : List StoreOp) (r : String) (now : Nat),
        sid < st.nextId → st.lookup sid = none →
        (applyOps st ops).getSession sid r now =
          Except.error SessionError.sessionNotFound) ∧
    (∀ (st : SessionStore) (sid : Nat) (s : Session) (ps : List (Nat × Nat)),
        st.lookup sid = some s →
        (∀ pr ∈ ps, pr.2 - pr.1 ≤ TTL) →
        ∃ s2, (ps.foldl (fun acc pr => (acc.touch sid pr.1).sweepExpired pr.2) st).lookup sid
            = some s2 ∧ s2.ownerId = s.ownerId) := by
  refine ⟨?_, ?_, ?_⟩
  · intro st sid s now now2 r hnd h hexp
    have hnone : (st.sweepExpired now).lookup sid = none := by
      exact findSession_filter_drop _ sid s st.sessions hnd h
        (by simp [Session.expired, hexp])
    rw [SessionStore.getSession, hnone]
  · intro st sid ops r now hlt h
    rw [SessionStore.getSession, lookup_none_applyOps sid ops st hlt h]
  · intro st sid s ps
    induction ps generalizing st s with
    | nil => intro h _; exact ⟨s, h, rfl⟩
    | cons pr ps ih =>
        intro h hgap
        have htouch : (st.touch sid pr.1).lookup sid =
            some { s with lastActivity := pr.1 } :=
          findSession_touch_some sid pr.1 s st.sessions h
        have hkeep : ((st.touch sid pr.1).sweepExpired pr.2).lookup sid =
            some { s with lastActivity := pr.1 } := by
          apply findSession_filter_some _ sid _ _ htouch
          have hle : pr.2 - pr.1 ≤ TTL := hgap pr (List.mem_cons_self pr ps)
          simp only [Session.expired, Bool.not_eq_true', decide_eq_false_iff_not]
          exact Nat.not_lt.mpr hle
        have hrest := ih ((st.touch sid pr.1).sweepExpired pr.2)
          { s with lastActivity := pr.1 } hkeep
          (fun q hq => hgap q (List.mem_cons.mpr (Or.inr hq)))
        obtain ⟨s2, hs2, howner⟩ := hrest
        exact ⟨s2, hs2, howner⟩

/-- Witness for C6: the demo session (last activity 0) is evicted by a
sweep at TTL + 1 and unreachable; a store that lost id 0 never serves it
again even after creating a new session; and two touch-sweep rounds with
gaps inside the TTL keep the demo session alive for alice. -/
theorem session_expiry_lifecycle_witness :
    (demoStore.sweepExpired (TTL + 1)).getSession 0 "alice" (TTL + 1) =
      Except.error SessionError.sessionNotFound ∧
    (applyOps ⟨[], 1⟩ [StoreOp.create "bob" demoRecs demoProvider 10]).getSession 0 "alice" 10 =
      Except.error SessionError.sessionNotFound ∧
    ∃ s2, (([(3600, 7200), (10800, 14400)] : List (Nat × Nat)).foldl
        (fun acc pr => (acc.touch 0 pr.1).sweepExpired pr.2) demoStore).lookup 0
      = some s2 ∧ s2.ownerId = demoSession.ownerId := by
  refine ⟨?_, ?_, ?_⟩
  · exact session_expiry_lifecycle.1 demoStore 0 demoSession (TTL + 1) (TTL + 1) "alice"
      (by simp [demoStore]) rfl (by simp [demoSession, TTL])
  · exact session_expiry_lifecycle.2.1 ⟨[], 1⟩ 0
      [StoreOp.create "bob" demoRecs demoProvider 10] "alice" 10 (by decide) rfl
  · exact session_expiry_lifecycle.2.2 demoStore 0 demoSession
      [(3600, 7200), (10800, 14400)] rfl (by decide)

end Invoiceable
